import Mathlib

/-!
Verification development for the maple-rag incremental ingestion and
retrieval pipeline.  The definitions below are shallow embeddings of the
Python source files:

* `src/scraper/chunker.py`        (`RecursiveTextSplitter`, `ContentChunker`)
* `src/db/repositories/document.py` (`DocumentRepository`)
* `src/scraper/ingestion.py`      (`IngestionPipeline.ingest_page`)
* `scripts/incremental_ingest.py` (per-URL processing of `run_incremental_ingest`)
* `src/scraper/change_detector.py` (`ChangeDetector.detect_changes`)
* `src/agent/nodes/retriever.py`  (the source de-duplication loop of `retrieve`)

External primitives (SHA-256, the embedding model, pgvector's cosine
distance operator) are modelled as explicit function parameters, since the
repository only calls them and compares their outputs.
-/

namespace MapleRag

/-! ## Text chunker (`src/scraper/chunker.py`) -/

/-- Python `separator.join(parts)`. -/
def joinSep (sep : String) : List String → String
  | [] => ""
  | [s] => s
  | s :: rest => s ++ sep ++ joinSep sep rest

/-- Python `sum(len(s) + len(separator) for s in current_chunk)`, the exact
value `_merge_splits` keeps in `current_length` (it is recomputed by this
formula after seeding a new chunk and incremented by `len(split) +
len(separator)` on every append, which preserves the formula). -/
def curLen (sepLen : Nat) (cur : List String) : Nat :=
  (cur.map (fun s => s.length + sepLen)).sum

/-- Backward walk of `_merge_splits` (chunker.py lines 75-82): the splits of
the just-closed chunk are visited from the end; each is prepended to the
seed while `overlap_length + len(s) <= chunk_overlap`, and `overlap_length`
then grows by `len(s) + len(separator)`.  `rev` is the reversed list of the
closed chunk's splits, `ovLen` is `overlap_length`, `acc` is
`overlap_splits`. -/
def seedAux (sepLen overlap : Nat) : List String → Nat → List String → List String
  | [], _, acc => acc
  | s :: rest, ovLen, acc =>
    if ovLen + s.length ≤ overlap then
      seedAux sepLen overlap rest (ovLen + s.length + sepLen) (s :: acc)
    else acc

/-- Seed of the next chunk: the suffix of the closed chunk's splits chosen by
the backward walk. -/
def overlapSuffix (sepLen overlap : Nat) (cur : List String) : List String :=
  seedAux sepLen overlap cur.reverse 0 []

/-- Accumulating loop of `RecursiveTextSplitter._merge_splits`, kept at the
level of split lists: each produced chunk is recorded as its list of splits
(`current_chunk` in the Python), and the joined strings are recovered by
`mergeSplits` below exactly as `separator.join(current_chunk)` does. -/
def mergeAux (sep : String) (size overlap : Nat) : List String → List String → List (List String)
  | [], cur => if cur = [] then [] else [cur]
  | split :: rest, cur =>
    if curLen sep.length cur + (split.length + sep.length) > size ∧ cur ≠ [] then
      cur :: mergeAux sep size overlap rest (overlapSuffix sep.length overlap cur ++ [split])
    else
      mergeAux sep size overlap rest (cur ++ [split])

/-- `RecursiveTextSplitter._merge_splits`. -/
def mergeSplits (sep : String) (size overlap : Nat) (splits : List String) : List String :=
  (mergeAux sep size overlap splits []).map (joinSep sep)

/-- `RecursiveTextSplitter._split_text_with_separator`: `text.split(separator)`
for a non-empty separator, `list(text)` for the empty one. -/
def splitBySep (text sep : String) : List String :=
  if sep = "" then text.toList.map (fun c => String.mk [c])
  else text.splitOn sep

/-- Splits kept by `_split_recursive` after discarding pieces that are empty
once trimmed (`[s for s in splits if s.strip()]`). -/
def keptSplits (text sep : String) : List String :=
  (splitBySep text sep).filter (fun s => s.trim ≠ "")

/-- `RecursiveTextSplitter._split_recursive`. -/
def splitRecursive (size overlap : Nat) (seps : List String) (text : String) : List String :=
  match seps with
  | [] => [text]
  | sep :: rest =>
    if (keptSplits text sep).isEmpty then []
    else
      (mergeSplits sep size overlap (keptSplits text sep)).flatMap
        (fun c => if size < c.length ∧ rest ≠ [] then splitRecursive size overlap rest c else [c])
termination_by seps.length

/-- Default separator list of `RecursiveTextSplitter.__init__`. -/
def defaultSeparators : List String :=
  ["\n\n", "\n", ". ", "? ", "! ", "; ", ", ", " ", ""]

/-- `RecursiveTextSplitter.split_text` with the default separators (as used by
`ContentChunker`). -/
def splitText (size overlap : Nat) (text : String) : List String :=
  if text = "" ∨ text.trim = "" then []
  else splitRecursive size overlap defaultSeparators text

/-! ## Data model (`src/db/models.py`) -/

/-- Row of `canadaca.documents`.  Identifiers are modelled as naturals
(the Python uses UUID strings, only compared for equality), timestamps as
integers, and the open JSON metadata map as an association list. -/
structure Document where
  id : Nat
  url : String
  title : String := ""
  content : String := ""
  contentHash : String := ""
  language : String := "en"
  sitemapLastmod : Option Int := none
  lastScrapedAt : Option Int := none
  scrapeStatus : String := "pending"
  embeddingVersion : Option String := none
  metadata : List (String × String) := []
deriving Repr, DecidableEq

/-- Row of `canadaca.document_chunks`.  Embedding vectors are values of the
external embedding model; the repository never inspects their components, so
they are modelled as integer lists. -/
structure StoredChunk where
  id : Nat
  documentId : Nat
  content : String
  embedding : List Int
  chunkIndex : Nat
  metadata : List (String × String) := []
deriving Repr, DecidableEq

/-- Committed database state, plus a counter standing in for
`DocumentRepository.generate_id` (fresh UUIDs). -/
structure Db where
  docs : List Document := []
  chunks : List StoredChunk := []
  nextId : Nat := 0
deriving Repr, DecidableEq

/-! ## Document repository (`src/db/repositories/document.py`)

`compute_hash` is `hashlib.sha256(...).hexdigest()`, an external primitive;
every repository function that needs it takes it as a parameter
`hash : String → String` and only compares its outputs. -/

/-- `DocumentRepository.get_by_url`. -/
def getByUrl (db : Db) (url : String) : Option Document :=
  db.docs.find? (fun d => d.url == url)

/-- `DocumentRepository.create`. -/
def createDoc (hash : String → String) (db : Db) (url title content language : String)
    (metadata : List (String × String)) : Db × Document :=
  let d : Document :=
    { id := db.nextId, url := url, title := title, content := content,
      contentHash := hash content, language := language, metadata := metadata }
  ({ db with docs := db.docs ++ [d], nextId := db.nextId + 1 }, d)

/-- Mutation of an ORM `Document` object inside the session: the row with the
same id is replaced. -/
def updDocById (db : Db) (docId : Nat) (f : Document → Document) : Db :=
  { db with docs := db.docs.map (fun d => if d.id == docId then f d else d) }

/-- `DocumentRepository.upsert`.  Returns `(db, document, was_created)`.
Note the Python guard `if metadata:`: an empty (or absent) metadata dict
leaves the stored metadata untouched. -/
def upsert (hash : String → String) (db : Db) (url title content language : String)
    (metadata : List (String × String)) : Db × Document × Bool :=
  match getByUrl db url with
  | some existing =>
    let newHash := hash content
    if existing.contentHash == newHash then (db, existing, false)
    else
      let d' := { existing with
        title := title, content := content, contentHash := newHash,
        language := language,
        metadata := if metadata ≠ [] then metadata else existing.metadata }
      (updDocById db existing.id (fun _ => d'), d', false)
  | none =>
    let (db', d) := createDoc hash db url title content language metadata
    (db', d, true)

/-- `DocumentRepository.delete_chunks`. -/
def deleteChunks (db : Db) (docId : Nat) : Db :=
  { db with chunks := db.chunks.filter (fun c => c.documentId != docId) }

/-- Chunk payload as produced by `ContentChunker.chunk_document`
(chunker.py `Chunk` dataclass). -/
structure PChunk where
  content : String
  chunkIndex : Nat
  metadata : List (String × String) := []
deriving Repr, DecidableEq

/-- `ContentChunker.chunk_text`: split and wrap with per-chunk metadata. -/
def chunkText (size overlap : Nat) (content : String)
    (metadata : List (String × String)) : List PChunk :=
  if content = "" ∨ content.trim = "" then []
  else
    let cs := splitText size overlap content
    cs.enum.map (fun p =>
      { content := p.2, chunkIndex := p.1,
        metadata := metadata ++
          [("chunk_index", toString p.1), ("total_chunks", toString cs.length),
           ("chunk_size", toString p.2.length)] })

/-- `ContentChunker.chunk_document`: standard document metadata plus extras. -/
def chunkDocument (size overlap : Nat) (content url title language : String)
    (extraMetadata : List (String × String)) : List PChunk :=
  chunkText size overlap content
    ([("url", url), ("title", title), ("language", language)] ++ extraMetadata)

/-- `DocumentRepository.add_chunks_batch`: insert every chunk (content,
embedding, chunk_index, metadata) for a document with fresh ids. -/
def addChunksBatch (db : Db) (docId : Nat)
    (data : List (PChunk × List Int)) : Db :=
  let newChunks := data.enum.map (fun p =>
    { id := db.nextId + p.1, documentId := docId, content := p.2.1.content,
      embedding := p.2.2, chunkIndex := p.2.1.chunkIndex,
      metadata := p.2.1.metadata : StoredChunk })
  { db with chunks := db.chunks ++ newChunks, nextId := db.nextId + data.length }

/-! ## Ingestion pipeline (`src/scraper/ingestion.py`) -/

/-- Input of `IngestionPipeline.ingest_page` (crawler.py `ScrapedPage`,
without the raw HTML, which ingestion never reads). -/
structure ScrapedPage where
  url : String
  title : String
  content : String
  language : String
  metadata : List (String × String) := []
deriving Repr, DecidableEq

/-- Result dataclass `IngestionResult`. -/
structure IngestionResult where
  url : String
  success : Bool
  documentId : Option Nat := none
  chunksCreated : Nat := 0
  wasUpdated : Bool := false
  error : Option String := none
deriving Repr, DecidableEq

/-- `IngestionPipeline.ingest_page` on the happy path (no exception raised;
`get_db` then commits the session on exit).  `embed` is the external
embedding model `aembed_documents`, applied per chunk text.  Note the order
of operations in the source: `upsert` runs first, and only afterwards is the
stored `content_hash` compared against the hash of the fetched content. -/
def ingestPage (hash : String → String) (embed : String → List Int)
    (size overlap : Nat) (db : Db) (page : ScrapedPage) : Db × IngestionResult :=
  let r := upsert hash db page.url page.title page.content page.language page.metadata
  let db1 := r.1
  let document := r.2.1
  let wasCreated := r.2.2
  if ¬ wasCreated ∧ document.contentHash ≠ "" ∧ document.contentHash == hash page.content then
    (db1, { url := page.url, success := true, documentId := some document.id,
            chunksCreated := 0, wasUpdated := false })
  else
    let db2 := deleteChunks db1 document.id
    let chunks := chunkDocument size overlap page.content page.url page.title
        page.language page.metadata
    if chunks = [] then
      (db2, { url := page.url, success := true, documentId := some document.id,
              chunksCreated := 0, wasUpdated := wasCreated })
    else
      let embeddings := chunks.map (fun c => embed c.content)
      let db3 := addChunksBatch db2 document.id (chunks.zip embeddings)
      (db3, { url := page.url, success := true, documentId := some document.id,
              chunksCreated := chunks.length, wasUpdated := ¬ wasCreated })

/-! ## Per-URL processing of `scripts/incremental_ingest.py`

The body of the `for entry in urls_to_process` loop runs inside one
`get_db()` session: an exception anywhere in the body rolls the whole
session back (`src/db/connection.py` lines 116-123) and the `except`
handler then marks the document failed in a separate committed session. -/

/-- Entry parsed from the sitemap (`src/scraper/sitemap.py` `SitemapURL`,
the fields change detection reads). -/
structure SitemapEntry where
  loc : String
  lastmod : Option Int := none
deriving Repr, DecidableEq

/-- Outcome of processing one URL in `run_incremental_ingest`. -/
inductive StepOutcome where
  | skippedUnchanged
  | processed (created : Bool) (nChunks : Nat)
  | failed (msg : String)
deriving Repr, DecidableEq

/-- Continuation of the per-URL loop body once the unchanged-content skip
did not trigger (incremental_ingest.py lines 181-221): upsert, set the
bookkeeping fields, chunk, embed, delete the old chunks and insert the new
ones.  `insertOk = false` injects a storage failure during the chunk
insertion that follows the chunk deletion; an `Except.error` models an
exception escaping the session. -/
def incrRest (hash : String → String)
    (embedDocs : List String → Except String (List (List Int)))
    (insertOk : Bool) (now : Int) (embVer : String) (size overlap : Nat)
    (db : Db) (page : ScrapedPage) (entry : SitemapEntry) :
    Except String (Db × StepOutcome) :=
  let r := upsert hash db page.url page.title page.content page.language []
  let db1 := r.1
  let doc := r.2.1
  let created := r.2.2
  let db2 := updDocById db1 doc.id (fun d =>
    { d with sitemapLastmod := entry.lastmod, lastScrapedAt := some now,
             scrapeStatus := "scraped", embeddingVersion := some embVer })
  let chunks := chunkDocument size overlap page.content page.url page.title
      page.language []
  match embedDocs (chunks.map (fun c => c.content)) with
  | .error e => .error e
  | .ok vectors =>
    let db3 := deleteChunks db2 doc.id
    if insertOk then
      let db4 := addChunksBatch db3 doc.id (chunks.zip vectors)
      .ok (db4, .processed created chunks.length)
    else .error "insert failed"

/-- Session body of the per-URL loop of `run_incremental_ingest` (lines
161-221).  `embedDocs` is the external `embed_documents` call and may raise. -/
def incrBody (hash : String → String)
    (embedDocs : List String → Except String (List (List Int)))
    (insertOk : Bool) (now : Int) (embVer : String) (size overlap : Nat)
    (fullReindex : Bool) (db : Db) (entry : SitemapEntry) (page : ScrapedPage) :
    Except String (Db × StepOutcome) :=
  let newHash := hash page.content
  match getByUrl db entry.loc with
  | some doc =>
    if doc.contentHash == newHash ∧ ¬ fullReindex then
      .ok (updDocById db doc.id (fun d =>
            { d with sitemapLastmod := entry.lastmod, lastScrapedAt := some now,
                     scrapeStatus := "scraped" }),
           .skippedUnchanged)
    else incrRest hash embedDocs insertOk now embVer size overlap db page entry
  | none => incrRest hash embedDocs insertOk now embVer size overlap db page entry

/-- Best-effort failure marking in the `except` handler (lines 229-242): a
fresh session sets `scrape_status='failed'` for the URL and commits. -/
def markFailedByUrl (db : Db) (url : String) : Db :=
  { db with docs := db.docs.map (fun d =>
      if d.url == url then { d with scrapeStatus := "failed" } else d) }

/-- One iteration of the per-URL loop with `get_db` transaction semantics:
on success the session is committed, on an exception it is rolled back and
the handler marks the URL failed. -/
def incrProcessEntry (hash : String → String)
    (embedDocs : List String → Except String (List (List Int)))
    (insertOk : Bool) (now : Int) (embVer : String) (size overlap : Nat)
    (fullReindex : Bool) (db : Db) (entry : SitemapEntry) (page : ScrapedPage) :
    Db × StepOutcome :=
  match incrBody hash embedDocs insertOk now embVer size overlap fullReindex db entry page with
  | .ok (db', out) => (db', out)
  | .error e => (markFailedByUrl db entry.loc, .failed e)

/-! ## Change detector (`src/scraper/change_detector.py`) -/

/-- Report dataclass `ChangeReport`. -/
structure ChangeReport where
  newUrls : List SitemapEntry := []
  changedUrls : List SitemapEntry := []
  unchangedUrls : List SitemapEntry := []
  deletedUrls : List String := []
deriving Repr, DecidableEq

/-- `ChangeDetector.get_existing_documents`: all documents whose status is
not `deleted`, as a url-keyed dict (later rows overwrite earlier ones, as in
the Python dict comprehension). -/
def existingDocsList (docs : List Document) : List Document :=
  docs.filter (fun d => d.scrapeStatus != "deleted")

/-- Dict lookup for `existing_docs[url]` (last writer wins). -/
def dictLookup (docs : List Document) (url : String) : Option Document :=
  docs.reverse.find? (fun d => d.url == url)

/-- Classification outcomes of the `detect_changes` loop body
(lines 104-124). -/
inductive EntryClass where
  | isNew
  | isChanged
  | isUnchanged
deriving Repr, DecidableEq

/-- `ChangeDetector.detect_changes`, modelled faithfully.  Line 97 evaluates
`sitemap_urls = {entry.url for entry in sitemap_entries}` (and line 102
reads `url = entry.url` in the loop), but `SitemapURL` (sitemap.py lines
24-38) defines the field `loc` — plus a `language` property — and no `url`
attribute, so the first entry raises `AttributeError` and the call never
returns a report.  Only an empty entry list avoids the attribute access: the
set comprehension is empty, the classification loop body never runs, and
when `checkDeleted` the deleted set is every stored non-deleted URL (set
difference against the empty sitemap set). -/
def detectChanges (docs : List Document) (entries : List SitemapEntry)
    (checkDeleted : Bool) : Except String ChangeReport :=
  match entries with
  | [] =>
    if checkDeleted then
      .ok { deletedUrls := ((existingDocsList docs).map (fun d => d.url)).dedup }
    else .ok {}
  | _ :: _ => .error "AttributeError: SitemapURL object has no attribute url"

/-- Per-entry classification of the `detect_changes` loop body (lines
104-124), keyed on the URL field the code intends to read: the source reads
`entry.url`, which does not exist on `SitemapURL` and raises
`AttributeError` (see `detectChanges` above); `loc` is the field that
carries the entry URL, which the loop below line 102 is written against. -/
def classifyEntry (existing : List Document) (e : SitemapEntry) : EntryClass :=
  match dictLookup existing e.loc with
  | none => .isNew
  | some doc =>
    match e.lastmod, doc.sitemapLastmod with
    | some t, some t0 => if t0 < t then .isChanged else .isUnchanged
    | some _, none => .isChanged
    | none, _ => .isUnchanged

/-- Loop body of `detect_changes`: append the entry to the report list its
classification selects. -/
def classifyStep (existing : List Document) (rep : ChangeReport)
    (e : SitemapEntry) : ChangeReport :=
  match classifyEntry existing e with
  | .isNew => { rep with newUrls := rep.newUrls ++ [e] }
  | .isChanged => { rep with changedUrls := rep.changedUrls ++ [e] }
  | .isUnchanged => { rep with unchangedUrls := rep.unchangedUrls ++ [e] }

/-- `detect_changes` with the attribute slip repaired: the two `entry.url`
reads denote the URL field `SitemapURL` actually defines (`loc`).  This is
the behavior the rest of the function (lines 101-133) and the spec describe;
it exists to document the intent behind the `AttributeError` code bug, while
`detectChanges` above is the faithful model of the source. -/
def detectChangesFixed (docs : List Document) (entries : List SitemapEntry)
    (checkDeleted : Bool) : ChangeReport :=
  let existing := existingDocsList docs
  let existingUrls := (existing.map (fun d => d.url)).dedup
  let sitemapUrls := entries.map (fun e => e.loc)
  let base := entries.foldl (classifyStep existing) ({} : ChangeReport)
  if checkDeleted then
    { base with deletedUrls := existingUrls.filter (fun u => !sitemapUrls.contains u) }
  else base

/-! ## Retriever source de-duplication (`src/agent/nodes/retriever.py`) -/

/-- Context item assembled by the retrieve node for each kept hit. -/
structure ContextItem where
  content : String
  url : String
  title : String
  language : String
  score : Int
  chunkIndex : Nat
deriving Repr, DecidableEq

/-- Python `metadata.get(key, default)` on the chunk metadata dict. -/
def lookupD (md : List (String × String)) (key dflt : String) : String :=
  match md.find? (fun p => p.1 == key) with
  | some p => p.2
  | none => dflt

/-- Selection loop of `retrieve` (lines 59-89): walk the similarity hits in
order; skip a hit whose URL was already selected once at least 3 items have
been kept; otherwise record the URL and keep the hit.  Scores only matter
through their order and are modelled as integers. -/
def retrieveAux : List (StoredChunk × Int) → List String → List ContextItem → List ContextItem
  | [], _, items => items
  | (c, score) :: rest, seen, items =>
    let url := lookupD c.metadata "url" ""
    if url ∈ seen ∧ 3 ≤ items.length then retrieveAux rest seen items
    else
      retrieveAux rest (url :: seen)
        (items ++ [{ content := c.content, url := url,
                     title := lookupD c.metadata "title" "Unknown",
                     language := lookupD c.metadata "language" "en",
                     score := score, chunkIndex := c.chunkIndex }])

/-- The retrieve node's hit-processing loop, started with empty state. -/
def retrieveLoop (hits : List (StoredChunk × Int)) : List ContextItem :=
  retrieveAux hits [] []

/-! ## Similarity search (`DocumentRepository.similarity_search`)

The SQL query orders chunks by pgvector cosine distance (`<=>`, an external
operator, modelled as the parameter `dist`), optionally joins against the
owning document to filter by language, limits to `k` rows and reports
`1 - distance` as the similarity score. -/

/-- `DocumentRepository.similarity_search`. -/
def similaritySearch (dist : List Int → List Int → Int) (db : Db)
    (q : List Int) (k : Nat) (language : Option String) :
    List (StoredChunk × Int) :=
  let cands : List StoredChunk := match language with
    | some lang => db.chunks.filter (fun c =>
        db.docs.any (fun d => d.id == c.documentId && d.language == lang))
    | none => db.chunks
  let sorted := cands.mergeSort (fun a b => dist q a.embedding ≤ dist q b.embedding)
  (sorted.take k).map (fun c => (c, 1 - dist q c.embedding))

/-! ## Shared lemmas -/

/-- Helper: a stored row is replaced by its image under an id-keyed update. -/
theorem mem_updDocById_self (db : Db) (f : Document → Document)
    (doc : Document) (h : doc ∈ db.docs) : f doc ∈ (updDocById db doc.id f).docs :=
  List.mem_map.mpr ⟨doc, h, by simp⟩

/-- Helper: `upsert` on a stored document whose hash matches the supplied
content returns the row untouched and changes nothing. -/
theorem upsert_hash_match_eq (hash : String → String) (db : Db)
    (url title content language : String) (metadata : List (String × String))
    (doc : Document) (hfind : getByUrl db url = some doc)
    (hhash : doc.contentHash = hash content) :
    upsert hash db url title content language metadata = (db, doc, false) := by
  unfold upsert
  rw [hfind]
  simp [hhash]

/-! ## Concrete fixtures used by witnesses and counterexamples -/

/-- Stand-in hash function for concrete evaluations (injective on the inputs
used; only equality of outputs matters to the code). -/
def wHash : String → String := fun s => "#" ++ s

/-- Stored document for the unchanged-content scenarios. -/
def wDoc : Document :=
  { id := 0, url := "https://ex/a", title := "old title", content := "same body",
    contentHash := wHash "same body", language := "en", scrapeStatus := "scraped" }

/-- Stored chunk owned by `wDoc`. -/
def wChunk : StoredChunk :=
  { id := 3, documentId := 0, content := "same body", embedding := [1, 2],
    chunkIndex := 0 }

/-- Store holding `wDoc` and its chunk. -/
def wDb : Db := { docs := [wDoc], chunks := [wChunk], nextId := 7 }

/-- Fetched page with identical content but different title, language and
metadata. -/
def wPageSame : ScrapedPage :=
  { url := "https://ex/a", title := "NEW TITLE", content := "same body",
    language := "fr", metadata := [("k", "v")] }

/-- Fetched page with different content for the changed-content scenario. -/
def wPageNew : ScrapedPage :=
  { url := "https://ex/a", title := "NEW TITLE", content := "different body",
    language := "en" }

/-- Sitemap entry pointing at the fixture URL. -/
def wEntry : SitemapEntry := { loc := "https://ex/a", lastmod := some 99 }

/-! ## Claims -/

/-- Claim C10: when the stored content hash equals the hash of the supplied
content, `DocumentRepository.upsert` returns the existing document with
`was_created = false` and modifies nothing — stored title, language and
metadata keep their old values even when the supplied ones differ. -/
theorem upsert_unchanged_is_frame (hash : String → String) (db : Db)
    (url title content language : String) (metadata : List (String × String))
    (doc : Document) (hfind : getByUrl db url = some doc)
    (hhash : doc.contentHash = hash content) :
    upsert hash db url title content language metadata = (db, doc, false) :=
  upsert_hash_match_eq hash db url title content language metadata doc hfind hhash

/-- Witness for C10: concrete store, supplied title/language/metadata all
differ from the stored ones, yet the upsert returns the store unchanged. -/
theorem upsert_unchanged_is_frame_witness :
    getByUrl wDb "https://ex/a" = some wDoc ∧
    wDoc.contentHash = wHash "same body" ∧
    wDoc.title ≠ "NEW TITLE" ∧ wDoc.language ≠ "fr" ∧ wDoc.metadata ≠ [("k", "v")] ∧
    upsert wHash wDb "https://ex/a" "NEW TITLE" "same body" "fr" [("k", "v")] =
      (wDb, wDoc, false) :=
  ⟨by decide, by decide, by decide, by decide, by decide,
   upsert_unchanged_is_frame wHash wDb "https://ex/a" "NEW TITLE" "same body" "fr"
     [("k", "v")] wDoc (by decide) (by decide)⟩

/-- Claim C2: for a stored document whose hash equals the hash of the newly
fetched content (and no full reindex), `ingest_page` returns
`chunksCreated = 0, wasUpdated = false` and leaves the whole store — in
particular the document's chunks — untouched, while the incremental-ingest
loop additionally updates exactly the bookkeeping fields
`sitemap_lastmod`, `last_scraped_at` and `scrape_status = "scraped"` and
also leaves the chunks untouched. -/
theorem ingest_unchanged_hash_skips (hash : String → String)
    (embed : String → List Int)
    (embedDocs : List String → Except String (List (List Int)))
    (insertOk : Bool) (now : Int) (embVer : String) (size overlap : Nat)
    (db : Db) (page : ScrapedPage) (entry : SitemapEntry) (doc : Document)
    (hfind : getByUrl db page.url = some doc)
    (hhash : doc.contentHash = hash page.content)
    (hne : hash page.content ≠ "")
    (hloc : entry.loc = page.url) :
    ingestPage hash embed size overlap db page =
      (db, { url := page.url, success := true, documentId := some doc.id,
             chunksCreated := 0, wasUpdated := false }) ∧
    incrProcessEntry hash embedDocs insertOk now embVer size overlap false db entry page =
      (updDocById db doc.id (fun d =>
         { d with sitemapLastmod := entry.lastmod, lastScrapedAt := some now,
                  scrapeStatus := "scraped" }),
       .skippedUnchanged) ∧
    (incrProcessEntry hash embedDocs insertOk now embVer size overlap false db entry page).1.chunks
      = db.chunks := by
  have hup := upsert_hash_match_eq hash db page.url page.title page.content
    page.language page.metadata doc hfind hhash
  have hbeq : (doc.contentHash == hash page.content) = true := by
    simp [hhash]
  have h2 : incrProcessEntry hash embedDocs insertOk now embVer size overlap false db entry page =
      (updDocById db doc.id (fun d =>
         { d with sitemapLastmod := entry.lastmod, lastScrapedAt := some now,
                  scrapeStatus := "scraped" }),
       .skippedUnchanged) := by
    unfold incrProcessEntry incrBody
    rw [hloc, hfind]
    simp [hbeq]
  refine ⟨?_, h2, ?_⟩
  · unfold ingestPage
    rw [hup]
    simp [hhash, hne]
  · rw [h2]
    rfl

/-- Witness for C2: the fixture store with matching hash; evaluating both
paths gives the skip results with the chunk list untouched. -/
theorem ingest_unchanged_hash_skips_witness :
    getByUrl wDb "https://ex/a" = some wDoc ∧
    wDoc.contentHash = wHash "same body" ∧
    wHash "same body" ≠ "" ∧
    (ingestPage wHash (fun _ => [0]) 1000 200 wDb wPageSame =
      (wDb, { url := "https://ex/a", success := true, documentId := some wDoc.id,
              chunksCreated := 0, wasUpdated := false }) ∧
     incrProcessEntry wHash (fun _ => .ok []) true 5 "titan" 1000 200 false wDb wEntry wPageSame =
      (updDocById wDb wDoc.id (fun d =>
         { d with sitemapLastmod := wEntry.lastmod, lastScrapedAt := some 5,
                  scrapeStatus := "scraped" }),
       .skippedUnchanged) ∧
     (incrProcessEntry wHash (fun _ => .ok []) true 5 "titan" 1000 200 false wDb wEntry wPageSame).1.chunks
       = wDb.chunks) :=
  ⟨by decide, by decide, by decide,
   ingest_unchanged_hash_skips wHash (fun _ => [0]) (fun _ => .ok []) true 5 "titan"
     1000 200 wDb wPageSame wEntry wDoc (by decide) (by decide) (by decide) (by decide)⟩

/-- Claim C1 (divergence): for a stored document whose hash differs from the
hash of the newly fetched content, `ingest_page` first runs `upsert` — which
already overwrites `content_hash` with the new hash — and only then compares
the stored hash against the new hash, so the comparison always succeeds and
the unchanged-content skip fires: the document row is overwritten with the
new content, but the old chunks are never deleted, no new chunks are
created, and the result reports `chunksCreated = 0, wasUpdated = false`
instead of re-chunking with `wasUpdated = true`. -/
theorem ingest_changed_content_never_rechunks (hash : String → String)
    (embed : String → List Int) (size overlap : Nat)
    (db : Db) (page : ScrapedPage) (doc : Document)
    (hfind : getByUrl db page.url = some doc)
    (hdiff : doc.contentHash ≠ hash page.content)
    (hne : hash page.content ≠ "") :
    (ingestPage hash embed size overlap db page).2.chunksCreated = 0 ∧
    (ingestPage hash embed size overlap db page).2.wasUpdated = false ∧
    (ingestPage hash embed size overlap db page).2.success = true ∧
    (ingestPage hash embed size overlap db page).1.chunks = db.chunks ∧
    (∃ d' ∈ (ingestPage hash embed size overlap db page).1.docs,
      d'.id = doc.id ∧ d'.content = page.content ∧
      d'.contentHash = hash page.content ∧ d'.title = page.title) := by
  have hbeq : (doc.contentHash == hash page.content) = false := by
    simp [hdiff]
  have hmem : doc ∈ db.docs := by
    have := List.mem_of_find?_eq_some hfind
    exact this
  have heq : ingestPage hash embed size overlap db page =
      (updDocById db doc.id (fun _ =>
        { doc with title := page.title, content := page.content,
                   contentHash := hash page.content, language := page.language,
                   metadata := if page.metadata ≠ [] then page.metadata else doc.metadata }),
       { url := page.url, success := true,
         documentId := some doc.id, chunksCreated := 0, wasUpdated := false }) := by
    unfold ingestPage upsert
    rw [hfind]
    simp [hbeq, hne]
  rw [heq]
  exact ⟨rfl, rfl, rfl, rfl,
    ⟨_, mem_updDocById_self db _ doc hmem, rfl, rfl, rfl, rfl⟩⟩

/-- Witness for C1: on the fixture store, ingesting a page whose content
hash differs still reports `chunksCreated = 0, wasUpdated = false` and keeps
the stale chunk list. -/
theorem ingest_changed_content_never_rechunks_witness :
    getByUrl wDb "https://ex/a" = some wDoc ∧
    wDoc.contentHash ≠ wHash "different body" ∧
    wHash "different body" ≠ "" ∧
    ((ingestPage wHash (fun _ => [0]) 1000 200 wDb wPageNew).2.chunksCreated = 0 ∧
     (ingestPage wHash (fun _ => [0]) 1000 200 wDb wPageNew).2.wasUpdated = false ∧
     (ingestPage wHash (fun _ => [0]) 1000 200 wDb wPageNew).2.success = true ∧
     (ingestPage wHash (fun _ => [0]) 1000 200 wDb wPageNew).1.chunks = wDb.chunks ∧
     (∃ d' ∈ (ingestPage wHash (fun _ => [0]) 1000 200 wDb wPageNew).1.docs,
       d'.id = wDoc.id ∧ d'.content = wPageNew.content ∧
       d'.contentHash = wHash "different body" ∧ d'.title = wPageNew.title)) :=
  ⟨by decide, by decide, by decide,
   ingest_changed_content_never_rechunks wHash (fun _ => [0]) 1000 200 wDb wPageNew
     wDoc (by decide) (by decide) (by decide)⟩

/-- Claim C3: a storage failure injected after the old chunks are deleted
and during insertion of the new chunks escapes the `get_db` session, which
rolls the whole unit back: the committed chunk table is exactly the original
one, the only document change is the best-effort `scrape_status = "failed"`
marking from the exception handler, the URL's document is therefore never
left as `scrapeStatus = "scraped"`, and the outcome reports failure. -/
theorem incr_insert_failure_rolls_back (hash : String → String)
    (embedDocs : List String → Except String (List (List Int)))
    (now : Int) (embVer : String) (size overlap : Nat) (fullReindex : Bool)
    (db : Db) (entry : SitemapEntry) (page : ScrapedPage)
    (vectors : List (List Int))
    (hnoskip : ∀ doc, getByUrl db entry.loc = some doc →
      ¬ (doc.contentHash = hash page.content ∧ fullReindex = false))
    (hembed : embedDocs ((chunkDocument size overlap page.content page.url
        page.title page.language []).map (fun c => c.content)) = .ok vectors) :
    (incrProcessEntry hash embedDocs false now embVer size overlap fullReindex db entry page).2
      = .failed "insert failed" ∧
    (incrProcessEntry hash embedDocs false now embVer size overlap fullReindex db entry page).1
      = markFailedByUrl db entry.loc ∧
    (incrProcessEntry hash embedDocs false now embVer size overlap fullReindex db entry page).1.chunks
      = db.chunks ∧
    (∀ d ∈ (incrProcessEntry hash embedDocs false now embVer size overlap fullReindex db entry page).1.docs,
      d.url = entry.loc → d.scrapeStatus = "failed") ∧
    (∀ d ∈ (incrProcessEntry hash embedDocs false now embVer size overlap fullReindex db entry page).1.docs,
      d.url ≠ entry.loc → d ∈ db.docs) := by
  have hrest : incrRest hash embedDocs false now embVer size overlap db page entry
      = .error "insert failed" := by
    unfold incrRest
    simp [hembed]
  have hbody : incrBody hash embedDocs false now embVer size overlap fullReindex db entry page
      = .error "insert failed" := by
    unfold incrBody
    cases hfind : getByUrl db entry.loc with
    | none => simpa [hfind] using hrest
    | some doc =>
      have := hnoskip doc hfind
      have hcond : ¬ ((doc.contentHash == hash page.content) = true ∧ ¬ fullReindex = true) := by
        intro ⟨h1, h2⟩
        exact this ⟨by simpa using h1, by simpa using h2⟩
      simp only [hfind]
      rw [if_neg hcond]
      exact hrest
  have heq : incrProcessEntry hash embedDocs false now embVer size overlap fullReindex db entry page
      = (markFailedByUrl db entry.loc, .failed "insert failed") := by
    unfold incrProcessEntry
    rw [hbody]
  rw [heq]
  refine ⟨rfl, rfl, rfl, ?_, ?_⟩
  · intro d hd hurl
    unfold markFailedByUrl at hd
    simp only [List.mem_map] at hd
    obtain ⟨d0, _, hmap⟩ := hd
    by_cases hc : (d0.url == entry.loc) = true
    · rw [if_pos hc] at hmap
      rw [← hmap]
    · rw [if_neg hc] at hmap
      subst hmap
      exact absurd hurl (by simpa using hc)
  · intro d hd hurl
    unfold markFailedByUrl at hd
    simp only [List.mem_map] at hd
    obtain ⟨d0, hd0, hmap⟩ := hd
    by_cases hc : (d0.url == entry.loc) = true
    · rw [if_pos hc] at hmap
      exact absurd (by rw [← hmap]; simpa using hc) hurl
    · rw [if_neg hc] at hmap
      subst hmap
      exact hd0

/-- Embedding stub used by the C3 witness: always returns one vector. -/
def wEmbedOk : List String → Except String (List (List Int)) := fun _ => .ok [[9]]

/-- Witness for C3: on the fixture store with changed content and a failing
insert, the final state is the original store with only the failure marking,
the original chunk list, and a failure outcome. -/
theorem incr_insert_failure_rolls_back_witness :
    (∀ doc, getByUrl wDb wEntry.loc = some doc →
      ¬ (doc.contentHash = wHash wPageNew.content ∧ (false : Bool) = false)) ∧
    (wEmbedOk ((chunkDocument 1000 200 wPageNew.content wPageNew.url
        wPageNew.title wPageNew.language []).map (fun c => c.content)) = .ok [[9]]) ∧
    ((incrProcessEntry wHash wEmbedOk false 5 "titan" 1000 200 false wDb wEntry wPageNew).2
       = .failed "insert failed" ∧
     (incrProcessEntry wHash wEmbedOk false 5 "titan" 1000 200 false wDb wEntry wPageNew).1
       = markFailedByUrl wDb wEntry.loc ∧
     (incrProcessEntry wHash wEmbedOk false 5 "titan" 1000 200 false wDb wEntry wPageNew).1.chunks
       = wDb.chunks ∧
     (∀ d ∈ (incrProcessEntry wHash wEmbedOk false 5 "titan" 1000 200 false wDb wEntry wPageNew).1.docs,
       d.url = wEntry.loc → d.scrapeStatus = "failed") ∧
     (∀ d ∈ (incrProcessEntry wHash wEmbedOk false 5 "titan" 1000 200 false wDb wEntry wPageNew).1.docs,
       d.url ≠ wEntry.loc → d ∈ wDb.docs)) := by
  have hnoskip : ∀ doc, getByUrl wDb wEntry.loc = some doc →
      ¬ (doc.contentHash = wHash wPageNew.content ∧ (false : Bool) = false) := by
    intro doc h
    rw [show getByUrl wDb wEntry.loc = some wDoc from by decide] at h
    cases h
    decide
  exact ⟨hnoskip, rfl,
    incr_insert_failure_rolls_back wHash wEmbedOk 5 "titan" 1000 200 false wDb
      wEntry wPageNew [[9]] hnoskip rfl⟩

/-- Helper: the `newUrls` list built by the `detect_changes` fold. -/
theorem foldl_classifyStep_newUrls (ex : List Document) (es : List SitemapEntry)
    (acc : ChangeReport) :
    (es.foldl (classifyStep ex) acc).newUrls =
      acc.newUrls ++ es.filter (fun e => classifyEntry ex e == .isNew) := by
  induction es generalizing acc with
  | nil => simp
  | cons a tl ih =>
    rw [List.foldl_cons, ih]
    cases hcl : classifyEntry ex a <;>
      simp [classifyStep, hcl, List.filter_cons]

/-- Helper: the `changedUrls` list built by the `detect_changes` fold. -/
theorem foldl_classifyStep_changedUrls (ex : List Document) (es : List SitemapEntry)
    (acc : ChangeReport) :
    (es.foldl (classifyStep ex) acc).changedUrls =
      acc.changedUrls ++ es.filter (fun e => classifyEntry ex e == .isChanged) := by
  induction es generalizing acc with
  | nil => simp
  | cons a tl ih =>
    rw [List.foldl_cons, ih]
    cases hcl : classifyEntry ex a <;>
      simp [classifyStep, hcl, List.filter_cons]

/-- Helper: the `unchangedUrls` list built by the `detect_changes` fold. -/
theorem foldl_classifyStep_unchangedUrls (ex : List Document) (es : List SitemapEntry)
    (acc : ChangeReport) :
    (es.foldl (classifyStep ex) acc).unchangedUrls =
      acc.unchangedUrls ++ es.filter (fun e => classifyEntry ex e == .isUnchanged) := by
  induction es generalizing acc with
  | nil => simp
  | cons a tl ih =>
    rw [List.foldl_cons, ih]
    cases hcl : classifyEntry ex a <;>
      simp [classifyStep, hcl, List.filter_cons]

/-- Helper: characterization of the `new` classification. -/
theorem classifyEntry_eq_isNew (ex : List Document) (e : SitemapEntry) :
    classifyEntry ex e = .isNew ↔ dictLookup ex e.loc = none := by
  unfold classifyEntry
  cases dictLookup ex e.loc with
  | none => simp
  | some doc =>
    cases he : e.lastmod with
    | none => simp [he]
    | some t =>
      cases hd : doc.sitemapLastmod with
      | none => simp [he, hd]
      | some t0 => by_cases hlt : t0 < t <;> simp [he, hd, hlt]

/-- Changed-classification predicate of `detect_changes`: the stored document
exists and either both sides carry a lastmod with the entry's strictly
greater, or the entry has one and the store has none yet. -/
def changedPred (doc : Document) (e : SitemapEntry) : Prop :=
  (∃ t t0, e.lastmod = some t ∧ doc.sitemapLastmod = some t0 ∧ t0 < t) ∨
  (e.lastmod ≠ none ∧ doc.sitemapLastmod = none)

/-- Helper: characterization of the `changed` classification. -/
theorem classifyEntry_eq_isChanged (ex : List Document) (e : SitemapEntry) :
    classifyEntry ex e = .isChanged ↔
      ∃ doc, dictLookup ex e.loc = some doc ∧ changedPred doc e := by
  unfold classifyEntry changedPred
  cases dictLookup ex e.loc with
  | none => simp
  | some doc =>
    cases he : e.lastmod with
    | none => simp [he]
    | some t =>
      cases hd : doc.sitemapLastmod with
      | none => simp [he, hd]
      | some t0 =>
        by_cases hlt : t0 < t <;> simp [he, hd, hlt]

/-- Helper: characterization of the `unchanged` classification. -/
theorem classifyEntry_eq_isUnchanged (ex : List Document) (e : SitemapEntry) :
    classifyEntry ex e = .isUnchanged ↔
      ∃ doc, dictLookup ex e.loc = some doc ∧ ¬ changedPred doc e := by
  unfold classifyEntry changedPred
  cases dictLookup ex e.loc with
  | none => simp
  | some doc =>
    cases he : e.lastmod with
    | none => simp [he]
    | some t =>
      cases hd : doc.sitemapLastmod with
      | none => simp [he, hd]
      | some t0 =>
        by_cases hlt : t0 < t
        · simp [he, hd, hlt]
        · simp [he, hd, hlt]
          omega

/-- Intended classification behavior behind the C6 code bug: on
`detectChangesFixed` (the loop with `entry.url` read as the `loc` field it
denotes) every sitemap entry is classified by the priority rules (absent
from the snapshot → new; lastmod on both sides and strictly newer → changed;
lastmod on the entry but none stored → changed; otherwise unchanged), and
the deleted set is exactly the stored non-deleted URLs minus the URLs of the
supplied entries, all computed against the single snapshot
(`existingDocsList docs`) read at the start of the call.  This documents
that the loop body implements exactly the rules the spec states; the
faithful `detectChanges` never reaches it (see
`detect_changes_attribute_crash`). -/
theorem detect_changes_fixed_classification (docs : List Document)
    (entries : List SitemapEntry) :
    (∀ e ∈ entries,
      (e ∈ (detectChangesFixed docs entries true).newUrls ↔
        dictLookup (existingDocsList docs) e.loc = none) ∧
      (e ∈ (detectChangesFixed docs entries true).changedUrls ↔
        ∃ doc, dictLookup (existingDocsList docs) e.loc = some doc ∧
          changedPred doc e) ∧
      (e ∈ (detectChangesFixed docs entries true).unchangedUrls ↔
        ∃ doc, dictLookup (existingDocsList docs) e.loc = some doc ∧
          ¬ changedPred doc e)) ∧
    (∀ url, url ∈ (detectChangesFixed docs entries true).deletedUrls ↔
      ((∃ d ∈ docs, d.scrapeStatus ≠ "deleted" ∧ d.url = url) ∧
       url ∉ entries.map (fun e => e.loc))) := by
  have hnew := foldl_classifyStep_newUrls (existingDocsList docs) entries {}
  have hch := foldl_classifyStep_changedUrls (existingDocsList docs) entries {}
  have hun := foldl_classifyStep_unchangedUrls (existingDocsList docs) entries {}
  constructor
  · intro e he
    refine ⟨?_, ?_, ?_⟩
    · rw [show (detectChangesFixed docs entries true).newUrls =
          (entries.foldl (classifyStep (existingDocsList docs)) {}).newUrls from rfl,
        hnew, ← classifyEntry_eq_isNew]
      simp [List.mem_filter, he]
    · rw [show (detectChangesFixed docs entries true).changedUrls =
          (entries.foldl (classifyStep (existingDocsList docs)) {}).changedUrls from rfl,
        hch, ← classifyEntry_eq_isChanged]
      simp [List.mem_filter, he]
    · rw [show (detectChangesFixed docs entries true).unchangedUrls =
          (entries.foldl (classifyStep (existingDocsList docs)) {}).unchangedUrls from rfl,
        hun, ← classifyEntry_eq_isUnchanged]
      simp [List.mem_filter, he]
  · intro url
    show url ∈ ((existingDocsList docs).map (fun d => d.url)).dedup.filter
        (fun u => !(entries.map (fun e => e.loc)).contains u) ↔ _
    simp [List.mem_filter, List.mem_dedup, List.mem_map, existingDocsList,
      List.mem_filter, bne_iff_ne]
    tauto

/-- Claim C6 (divergence): `detect_changes` never classifies anything.  For
every non-empty entry list it raises `AttributeError` on the very first
attribute access (`entry.url` at change_detector.py line 97, while
`SitemapURL` defines only `loc`), so no entry is ever classified and no
deleted set is computed against a non-empty sitemap; the claimed rules are
implemented by the unreachable loop body (see
`detect_changes_fixed_classification`). -/
theorem detect_changes_attribute_crash (docs : List Document)
    (entries : List SitemapEntry) (checkDeleted : Bool) (h : entries ≠ []) :
    detectChanges docs entries checkDeleted =
      .error "AttributeError: SitemapURL object has no attribute url" := by
  cases entries with
  | nil => exact absurd rfl h
  | cons e es => rfl

/-- Witness for C6: a single concrete sitemap entry makes the real
`detect_changes` raise instead of classify. -/
theorem detect_changes_attribute_crash_witness :
    ([({ loc := "https://ex/a" } : SitemapEntry)] ≠ []) ∧
    detectChanges [] [{ loc := "https://ex/a" }] true =
      .error "AttributeError: SitemapURL object has no attribute url" :=
  ⟨by decide,
   detect_changes_attribute_crash [] [{ loc := "https://ex/a" }] true (by decide)⟩

/-- Claim C5 (counterexample): at the claim’s concrete scenario — store
holding only URL A with stored lastmod 10, sitemap entries
[A (lastmod 20), C (no lastmod)] — `detect_changes` does not return the
claimed report at all: reading `entry.url` on the first entry raises
`AttributeError`, so A and C are never classified and no URL — in
particular not B — is reported deleted. -/
theorem detect_changes_scenario_crashes :
    detectChanges
      [{ id := 0, url := "A", sitemapLastmod := some 10, scrapeStatus := "scraped" }]
      [{ loc := "A", lastmod := some 20 }, { loc := "C" }] true =
      .error "AttributeError: SitemapURL object has no attribute url" := rfl

/-- Claim C5 (amended): for every pair of stored and sitemap timestamps, the
scenario input produces no classification report: `detect_changes` raises
`AttributeError` (`SitemapURL` has no `url` attribute) before classifying A
or C or computing a deleted set. -/
theorem detect_changes_scenario_raises (t0 t1 : Int) :
    detectChanges
      [{ id := 0, url := "A", sitemapLastmod := some t0, scrapeStatus := "scraped" }]
      [{ loc := "A", lastmod := some t1 }, { loc := "C" }] true =
      .error "AttributeError: SitemapURL object has no attribute url" := rfl

/-- Intended behavior of the C5 scenario once the attribute slip is repaired
and URL B is actually stored: A is classified changed, C new, and B is
reported deleted (on the faithful code the scenario is unreachable; and a
URL absent from the store could never be in the deleted set, which is the
stored non-deleted URLs minus the sitemap URLs). -/
theorem detect_changes_fixed_scenario (t0 t1 : Int) (h : t0 < t1) :
    detectChangesFixed
      [{ id := 0, url := "A", sitemapLastmod := some t0, scrapeStatus := "scraped" },
       { id := 1, url := "B", scrapeStatus := "scraped" }]
      [{ loc := "A", lastmod := some t1 }, { loc := "C" }] true =
    { newUrls := [{ loc := "C" }],
      changedUrls := [{ loc := "A", lastmod := some t1 }],
      unchangedUrls := [],
      deletedUrls := ["B"] } := by
  unfold detectChangesFixed
  simp [existingDocsList, classifyStep, classifyEntry, dictLookup, List.dedup, h]

/-- Helper: the scores of the items selected by the retrieve loop extend the
accumulator's scores by a sublist of the hits' scores, in hit order. -/
theorem retrieveAux_scores_sublist (hits : List (StoredChunk × Int))
    (seen : List String) (items : List ContextItem) :
    ∃ r, (retrieveAux hits seen items).map ContextItem.score =
        items.map ContextItem.score ++ r ∧
      r.Sublist (hits.map Prod.snd) := by
  induction hits generalizing seen items with
  | nil => exact ⟨[], by simp [retrieveAux], List.nil_sublist _⟩
  | cons hit rest ih =>
    obtain ⟨c, score⟩ := hit
    by_cases hc : lookupD c.metadata "url" "" ∈ seen ∧ 3 ≤ items.length
    · obtain ⟨r, hr, hs⟩ := ih seen items
      refine ⟨r, ?_, hs.cons _⟩
      simpa [retrieveAux, hc] using hr
    · obtain ⟨r, hr, hs⟩ := ih (lookupD c.metadata "url" "" :: seen)
        (items ++ [{ content := c.content, url := lookupD c.metadata "url" "",
                     title := lookupD c.metadata "title" "Unknown",
                     language := lookupD c.metadata "language" "en",
                     score := score, chunkIndex := c.chunkIndex }])
      refine ⟨score :: r, ?_, hs.cons₂ _⟩
      rw [show retrieveAux ((c, score) :: rest) seen items =
            retrieveAux rest (lookupD c.metadata "url" "" :: seen)
              (items ++ [{ content := c.content, url := lookupD c.metadata "url" "",
                           title := lookupD c.metadata "title" "Unknown",
                           language := lookupD c.metadata "language" "en",
                           score := score, chunkIndex := c.chunkIndex }]) from by
        simp [retrieveAux, hc]]
      rw [hr]
      simp

/-- Concrete scenario of C4: ten hits in descending score order whose top six
share the source URL `"u"` and whose last four carry distinct other URLs. -/
def c4Hit (i : Nat) (u : String) (s : Int) : StoredChunk × Int :=
  ({ id := i, documentId := 0, content := "c", embedding := [], chunkIndex := i,
     metadata := [("url", u), ("title", "t")] }, s)

/-- The ten hits of the C4 scenario. -/
def c4Hits : List (StoredChunk × Int) :=
  [c4Hit 0 "u" 100, c4Hit 1 "u" 99, c4Hit 2 "u" 98, c4Hit 3 "u" 97, c4Hit 4 "u" 96,
   c4Hit 5 "u" 95, c4Hit 6 "a" 94, c4Hit 7 "b" 93, c4Hit 8 "c" 92, c4Hit 9 "d" 91]

/-- Claim C4 (counterexample): on the ten-hit scenario the selection loop
keeps the top three same-URL hits (the per-source cap is not enforced until
three items have been selected) and applies no `maxTotal` cap, so the result
has 7 items — not at most 5 — and its first three selections all come from
the dominant URL — not at most one. -/
theorem retrieve_loop_no_caps :
    (retrieveLoop c4Hits).length = 7 ∧
    ((retrieveLoop c4Hits).take 3).countP (fun i => i.url == "u") = 3 ∧
    ¬ ((retrieveLoop c4Hits).length ≤ 5 ∧
       ((retrieveLoop c4Hits).take 3).countP (fun i => i.url == "u") ≤ 1) := by
  decide

/-- Claim C4 (amended): the loop walks hits in order, so descending score
order is always preserved in the result; on the ten-hit scenario the first
three selections all come from the dominant URL (the cap is relaxed until 3
items are selected), no later selection comes from it, and the result has 7
items — bounded only by the number of hits, with no `maxTotal` cap. -/
theorem retrieve_loop_scenario (hits : List (StoredChunk × Int))
    (hsort : List.Pairwise (fun a b => b.2 ≤ a.2) hits) :
    List.Pairwise (fun i j => j.score ≤ i.score) (retrieveLoop hits) ∧
    (retrieveLoop c4Hits).length = 7 ∧
    ((retrieveLoop c4Hits).take 3).countP (fun i => i.url == "u") = 3 ∧
    ((retrieveLoop c4Hits).drop 3).countP (fun i => i.url == "u") = 0 ∧
    (retrieveLoop c4Hits).map ContextItem.score = [100, 99, 98, 94, 93, 92, 91] := by
  refine ⟨?_, by decide, by decide, by decide, by decide⟩
  obtain ⟨r, hr, hs⟩ := retrieveAux_scores_sublist hits [] []
  have hbig : List.Pairwise (fun x y => y ≤ x) (hits.map Prod.snd) :=
    List.pairwise_map.mpr hsort
  have h1 : List.Pairwise (fun x y => y ≤ x) ((retrieveLoop hits).map ContextItem.score) := by
    rw [show (retrieveLoop hits).map ContextItem.score = r from by
      simpa [retrieveLoop] using hr]
    exact List.Pairwise.sublist hs hbig
  exact List.pairwise_map.mp h1

/-- Witness for C4 (amended): the scenario hits are sorted descending and the
theorem applies to them. -/
theorem retrieve_loop_scenario_witness :
    List.Pairwise (fun a b => b.2 ≤ a.2) c4Hits ∧
    (List.Pairwise (fun i j => j.score ≤ i.score) (retrieveLoop c4Hits) ∧
     (retrieveLoop c4Hits).length = 7 ∧
     ((retrieveLoop c4Hits).take 3).countP (fun i => i.url == "u") = 3 ∧
     ((retrieveLoop c4Hits).drop 3).countP (fun i => i.url == "u") = 0 ∧
     (retrieveLoop c4Hits).map ContextItem.score = [100, 99, 98, 94, 93, 92, 91]) :=
  ⟨by decide, retrieve_loop_scenario c4Hits (by decide)⟩

/-- Claim C9: `similarity_search` returns at most `k` pairs, ordered by
non-increasing similarity score, each score is `1 - cosineDistance` (the
pgvector `<=>` operator, abstracted as `dist`) of the query against the
chunk's embedding, and under a language filter every returned chunk joins to
a stored document with that id and that language. -/
theorem similarity_search_contract (dist : List Int → List Int → Int)
    (db : Db) (q : List Int) (k : Nat) (language : Option String) :
    (similaritySearch dist db q k language).length ≤ k ∧
    List.Pairwise (fun p p' => p'.2 ≤ p.2) (similaritySearch dist db q k language) ∧
    (∀ p ∈ similaritySearch dist db q k language,
      p.2 = 1 - dist q p.1.embedding) ∧
    (∀ lang, language = some lang →
      ∀ p ∈ similaritySearch dist db q k language,
        ∃ d ∈ db.docs, d.id = p.1.documentId ∧ d.language = lang) := by
  unfold similaritySearch
  set cands : List StoredChunk := (match language with
    | some lang => db.chunks.filter (fun c =>
        db.docs.any (fun d => d.id == c.documentId && d.language == lang))
    | none => db.chunks) with hcands
  set le : StoredChunk → StoredChunk → Bool :=
    fun a b => dist q a.embedding ≤ dist q b.embedding with hle
  have hsorted : List.Pairwise (fun a b => le a b = true) (cands.mergeSort le) := by
    refine List.sorted_mergeSort ?_ ?_ cands
    · intro a b c hab hbc
      simp only [hle, decide_eq_true_eq] at *
      omega
    · intro a b
      simp only [hle]
      by_cases h : dist q a.embedding ≤ dist q b.embedding
      · simp [h]
      · simp [h]
        omega
  refine ⟨?_, ?_, ?_, ?_⟩
  · simp
  · have htake : List.Pairwise (fun a b => le a b = true) ((cands.mergeSort le).take k) :=
      List.Pairwise.sublist (List.take_sublist k _) hsorted
    refine List.pairwise_map.mpr (htake.imp ?_)
    intro a b h
    simp only [hle, decide_eq_true_eq] at h
    omega
  · intro p hp
    simp only [List.mem_map] at hp
    obtain ⟨c, _, hc⟩ := hp
    rw [← hc]
  · intro lang hlang p hp
    simp only [List.mem_map] at hp
    obtain ⟨c, hcmem, hc⟩ := hp
    have hc1 : c ∈ cands := by
      have := List.mem_of_mem_take hcmem
      exact (List.mem_mergeSort).mp this
    rw [hlang] at hcands
    rw [hcands] at hc1
    simp only [List.mem_filter, List.any_eq_true, Bool.and_eq_true, beq_iff_eq] at hc1
    obtain ⟨-, d, hd, hid, hdl⟩ := hc1
    exact ⟨d, hd, by rw [hid, ← hc], by rw [hdl]⟩

/-! ## Chunker lemmas -/

theorem joinSep_cons (sep s : String) (t : List String) (h : t ≠ []) :
    joinSep sep (s :: t) = s ++ sep ++ joinSep sep t := by
  cases t with
  | nil => exact absurd rfl h
  | cons a b => rfl

theorem joinSep_append (sep : String) (a b : List String) (ha : a ≠ []) (hb : b ≠ []) :
    joinSep sep (a ++ b) = joinSep sep a ++ sep ++ joinSep sep b := by
  induction a with
  | nil => exact absurd rfl ha
  | cons x a' ih =>
    cases a' with
    | nil =>
      rw [List.singleton_append, joinSep_cons sep x b hb]
      rfl
    | cons y a'' =>
      rw [List.cons_append, joinSep_cons sep x ((y :: a'') ++ b) (by simp),
          ih (by simp), joinSep_cons sep x (y :: a'') (by simp)]
      simp [String.append_assoc]

theorem curLen_eq_joinSep (sep : String) (l : List String) :
    curLen sep.length l =
      (joinSep sep l).length + (if l = [] then 0 else sep.length) := by
  induction l with
  | nil => simp [curLen, joinSep]
  | cons s t ih =>
    cases t with
    | nil => simp [curLen, joinSep]
    | cons y t' =>
      rw [joinSep_cons sep s (y :: t') (by simp)]
      simp only [curLen, List.map_cons, List.sum_cons, String.length_append,
        List.cons_ne_nil, if_false] at *
      omega

theorem seedAux_eq_prefix_reverse (sepLen overlap : Nat) :
    ∀ (rev : List String) (ov : Nat) (acc : List String),
      ∃ pre, pre <+: rev ∧ seedAux sepLen overlap rev ov acc = pre.reverse ++ acc := by
  intro rev
  induction rev with
  | nil => exact fun ov acc => ⟨[], List.nil_prefix, rfl⟩
  | cons s rest ih =>
    intro ov acc
    by_cases h : ov + s.length ≤ overlap
    · obtain ⟨pre, hp, he⟩ := ih (ov + s.length + sepLen) (s :: acc)
      obtain ⟨t, ht⟩ := hp
      refine ⟨s :: pre, ⟨t, by rw [List.cons_append, ht]⟩, ?_⟩
      rw [show seedAux sepLen overlap (s :: rest) ov acc
          = seedAux sepLen overlap rest (ov + s.length + sepLen) (s :: acc) from by
        simp [seedAux, h]]
      rw [he]
      simp
    · exact ⟨[], List.nil_prefix, by simp [seedAux, h]⟩

theorem overlapSuffix_suffix (sep : String) (overlap : Nat) (cur : List String) :
    overlapSuffix sep.length overlap cur <:+ cur := by
  obtain ⟨pre, hp, he⟩ := seedAux_eq_prefix_reverse sep.length overlap cur.reverse 0 []
  rw [overlapSuffix, he, List.append_nil]
  exact List.reverse_prefix.mp (by rw [List.reverse_reverse]; exact hp)

theorem seedAux_join_le (sep : String) (overlap : Nat) :
    ∀ (rev : List String) (ov : Nat) (acc : List String),
      ov = curLen sep.length acc →
      (joinSep sep acc).length ≤ overlap →
      (joinSep sep (seedAux sep.length overlap rev ov acc)).length ≤ overlap := by
  intro rev
  induction rev with
  | nil =>
    intro ov acc _ h2
    simpa [seedAux] using h2
  | cons s rest ih =>
    intro ov acc h1 h2
    by_cases h : ov + s.length ≤ overlap
    · rw [show seedAux sep.length overlap (s :: rest) ov acc
          = seedAux sep.length overlap rest (ov + s.length + sep.length) (s :: acc) from by
        simp [seedAux, h]]
      apply ih
      · rw [h1]
        simp only [curLen, List.map_cons, List.sum_cons]
        omega
      · cases acc with
        | nil =>
          have hov : ov = 0 := by simpa [curLen] using h1
          simpa [joinSep] using (by omega : s.length ≤ overlap)
        | cons y t =>
          rw [joinSep_cons sep s (y :: t) (by simp)]
          have hc := curLen_eq_joinSep sep (y :: t)
          simp only [List.cons_ne_nil, if_false] at hc
          rw [h1, hc] at h
          rw [String.length_append, String.length_append]
          omega
    · rw [show seedAux sep.length overlap (s :: rest) ov acc = acc from by
        simp [seedAux, h]]
      exact h2

theorem overlapSuffix_join_le (sep : String) (overlap : Nat) (cur : List String) :
    (joinSep sep (overlapSuffix sep.length overlap cur)).length ≤ overlap := by
  apply seedAux_join_le sep overlap cur.reverse 0 []
  · rfl
  · simp [joinSep]

theorem mergeAux_head_append (sep : String) (size overlap : Nat) :
    ∀ (splits cur : List String), cur ≠ [] →
      ∃ ext tl, mergeAux sep size overlap splits cur = (cur ++ ext) :: tl := by
  intro splits
  induction splits with
  | nil =>
    intro cur h
    exact ⟨[], [], by simp [mergeAux, h]⟩
  | cons split rest ih =>
    intro cur h
    by_cases hg : curLen sep.length cur + (split.length + sep.length) > size ∧ cur ≠ []
    · exact ⟨[], mergeAux sep size overlap rest
        (overlapSuffix sep.length overlap cur ++ [split]), by simp [mergeAux, hg]⟩
    · obtain ⟨ext, tl, he⟩ := ih (cur ++ [split]) (by simp)
      refine ⟨[split] ++ ext, tl, ?_⟩
      rw [show mergeAux sep size overlap (split :: rest) cur
          = mergeAux sep size overlap rest (cur ++ [split]) from by simp [mergeAux, hg]]
      rw [he, List.append_assoc]

theorem mergeAux_chain' (sep : String) (size overlap : Nat) :
    ∀ (splits cur : List String),
      List.Chain' (fun pa pb => overlapSuffix sep.length overlap pa <+: pb)
        (mergeAux sep size overlap splits cur) := by
  intro splits
  induction splits with
  | nil =>
    intro cur
    by_cases h : cur = [] <;> simp [mergeAux, h]
  | cons split rest ih =>
    intro cur
    by_cases hg : curLen sep.length cur + (split.length + sep.length) > size ∧ cur ≠ []
    · rw [show mergeAux sep size overlap (split :: rest) cur
          = cur :: mergeAux sep size overlap rest
              (overlapSuffix sep.length overlap cur ++ [split]) from by
        simp [mergeAux, hg]]
      rw [List.chain'_cons']
      refine ⟨?_, ih _⟩
      intro y hy
      obtain ⟨ext, tl, he⟩ := mergeAux_head_append sep size overlap rest
        (overlapSuffix sep.length overlap cur ++ [split]) (by simp)
      rw [he] at hy
      simp only [List.head?_cons, Option.mem_def, Option.some_inj] at hy
      rw [← hy, List.append_assoc]
      exact List.prefix_append _ _
    · rw [show mergeAux sep size overlap (split :: rest) cur
          = mergeAux sep size overlap rest (cur ++ [split]) from by simp [mergeAux, hg]]
      exact ih _

theorem joinSep_of_suffix (sep : String) {l₂ l₁ : List String} (h : l₂ <:+ l₁) :
    ∃ u, joinSep sep l₁ = u ++ joinSep sep l₂ := by
  obtain ⟨front, rfl⟩ := h
  by_cases h2 : l₂ = []
  · subst h2
    exact ⟨joinSep sep front, by simp [joinSep]⟩
  · by_cases h3 : front = []
    · subst h3
      exact ⟨"", by simp⟩
    · rw [joinSep_append sep front l₂ h3 h2]
      exact ⟨joinSep sep front ++ sep, rfl⟩

theorem joinSep_of_prefix (sep : String) {l₂ l₁ : List String} (h : l₂ <+: l₁) :
    ∃ v, joinSep sep l₁ = joinSep sep l₂ ++ v := by
  obtain ⟨t, rfl⟩ := h
  by_cases h2 : l₂ = []
  · subst h2
    exact ⟨joinSep sep t, by simp [joinSep]⟩
  · by_cases h3 : t = []
    · subst h3
      exact ⟨"", by simp [joinSep]⟩
    · rw [joinSep_append sep l₂ t h2 h3]
      exact ⟨sep ++ joinSep sep t, by rw [String.append_assoc]⟩

/-- Claim C7: in `_merge_splits`, whenever a chunk is closed the next chunk is
opened seeded with the backward-walk suffix (`overlapSuffix`) of the closed
chunk's splits, and the concatenated length of that shared seed is at most
`chunkOverlap`: over the split lists of consecutive chunks the seed is a
suffix of the closed chunk and a prefix of the next one with joined length
`≤ overlap`, and hence every pair of consecutive produced chunk strings
shares a boundary string of length at most `chunkOverlap` (a suffix of the
former and a prefix of the latter). -/
theorem merge_splits_overlap_bound (sep : String) (size overlap : Nat)
    (splits : List String) :
    List.Chain' (fun pa pb =>
        overlapSuffix sep.length overlap pa <:+ pa ∧
        overlapSuffix sep.length overlap pa <+: pb ∧
        (joinSep sep (overlapSuffix sep.length overlap pa)).length ≤ overlap)
      (mergeAux sep size overlap splits []) ∧
    List.Chain' (fun a b => ∃ s : String, s.length ≤ overlap ∧
        (∃ u, a = u ++ s) ∧ (∃ v, b = s ++ v))
      (mergeSplits sep size overlap splits) := by
  have hch := mergeAux_chain' sep size overlap splits []
  constructor
  · exact hch.imp (fun pa pb h =>
      ⟨overlapSuffix_suffix _ _ _, h, overlapSuffix_join_le _ _ _⟩)
  · rw [show mergeSplits sep size overlap splits
        = (mergeAux sep size overlap splits []).map (joinSep sep) from rfl,
      List.chain'_map]
    refine hch.imp ?_
    intro pa pb h
    exact ⟨joinSep sep (overlapSuffix sep.length overlap pa),
      overlapSuffix_join_le sep overlap pa,
      joinSep_of_suffix sep (overlapSuffix_suffix sep overlap pa),
      joinSep_of_prefix sep h⟩

theorem jlen_append_singleton_zero (sep : String) (hsep : sep.length = 0)
    (l : List String) (s : String) :
    (joinSep sep (l ++ [s])).length = (joinSep sep l).length + s.length := by
  by_cases hl : l = []
  · subst hl
    simp [joinSep]
  · rw [joinSep_append sep l [s] hl (by simp)]
    simp [String.length_append, hsep, joinSep]

theorem mergeAux_zero_sep_bound (sep : String) (hsep : sep.length = 0)
    (size overlap : Nat) (hov : overlap < size) :
    ∀ (splits cur : List String), (∀ s ∈ splits, s.length = 1) →
      (joinSep sep cur).length ≤ size →
      ∀ p ∈ mergeAux sep size overlap splits cur, (joinSep sep p).length ≤ size := by
  intro splits
  induction splits with
  | nil =>
    intro cur _ hcur p hp
    by_cases h : cur = []
    · simp [mergeAux, h] at hp
    · simp only [mergeAux, h, if_false, List.mem_singleton] at hp
      rw [hp]
      exact hcur
  | cons split rest ih =>
    intro cur hall hcur p hp
    have hs1 : split.length = 1 := hall split (by simp)
    have hall' : ∀ s ∈ rest, s.length = 1 := fun s hs => hall s (by simp [hs])
    by_cases hg : curLen sep.length cur + (split.length + sep.length) > size ∧ cur ≠ []
    · rw [show mergeAux sep size overlap (split :: rest) cur
          = cur :: mergeAux sep size overlap rest
              (overlapSuffix sep.length overlap cur ++ [split]) from by
        simp [mergeAux, hg]] at hp
      rcases List.mem_cons.mp hp with hpc | hpm
      · rw [hpc]
        exact hcur
      · refine ih (overlapSuffix sep.length overlap cur ++ [split]) hall' ?_ p hpm
        rw [jlen_append_singleton_zero sep hsep, hs1]
        have := overlapSuffix_join_le sep overlap cur
        omega
    · rw [show mergeAux sep size overlap (split :: rest) cur
          = mergeAux sep size overlap rest (cur ++ [split]) from by
        simp [mergeAux, hg]] at hp
      refine ih (cur ++ [split]) hall' ?_ p hp
      rw [jlen_append_singleton_zero sep hsep, hs1]
      by_cases hc : cur = []
      · subst hc
        simp [joinSep]
        omega
      · have hng : ¬ curLen sep.length cur + (split.length + sep.length) > size := by
          intro hx
          exact hg ⟨hx, hc⟩
        have hcl := curLen_eq_joinSep sep cur
        rw [if_neg hc] at hcl
        omega

theorem splitRecursive_le (size overlap : Nat) (hov : overlap < size) :
    ∀ (seps : List String), seps.getLast? = some "" →
      ∀ (text c : String), c ∈ splitRecursive size overlap seps text → c.length ≤ size := by
  intro seps
  induction seps with
  | nil =>
    intro hlast
    simp at hlast
  | cons sep rest ih =>
    intro hlast text c hc
    unfold splitRecursive at hc
    by_cases hempty : (keptSplits text sep).isEmpty
    · rw [if_pos hempty] at hc
      simp at hc
    · rw [if_neg hempty] at hc
      rw [List.mem_flatMap] at hc
      obtain ⟨c0, hc0, hin⟩ := hc
      by_cases hr : rest = []
      · have hsep : sep = "" := by
          subst hr
          simpa using hlast
        have hin' : c = c0 := by
          rw [if_neg (fun hx => hx.2 hr)] at hin
          simpa using hin
        subst hin'
        rw [show mergeSplits sep size overlap (keptSplits text sep)
            = ((mergeAux sep size overlap (keptSplits text sep) []).map
                  (joinSep sep)) from rfl] at hc0
        rw [List.mem_map] at hc0
        obtain ⟨p, hpmem, hpj⟩ := hc0
        rw [← hpj]
        refine mergeAux_zero_sep_bound sep (by rw [hsep]; rfl) size overlap hov
          (keptSplits text sep) [] ?_ (by simp [joinSep]) p hpmem
        intro s hs
        rw [keptSplits, List.mem_filter] at hs
        have hs' := hs.1
        rw [hsep] at hs'
        rw [show splitBySep text "" = text.toList.map (fun ch => String.mk [ch]) from rfl,
          List.mem_map] at hs'
        obtain ⟨ch, -, hch⟩ := hs'
        rw [← hch]
        rfl
      · by_cases hb : size < c0.length
        · rw [if_pos ⟨hb, hr⟩] at hin
          have hlast' : rest.getLast? = some "" := by
            cases rest with
            | nil => exact absurd rfl hr
            | cons y rest' => simpa using hlast
          exact ih hlast' c0 c hin
        · have : c = c0 := by
            rw [if_neg (fun hx => hb hx.1)] at hin
            simpa using hin
          rw [this]
          omega

/-- Claim C8: with `chunkOverlap < chunkSize`, every chunk returned by
`split_text` has length at most `chunkSize` (with the default separator list
the character-level last resort always applies, so the oversized-leaf escape
hatch is never needed and the bound holds for every chunk), and empty or
whitespace-only input yields an empty list. -/
theorem split_text_chunk_size_bound (size overlap : Nat) (text : String)
    (hov : overlap < size) :
    (∀ c ∈ splitText size overlap text, c.length ≤ size) ∧
    ((text = "" ∨ text.trim = "") → splitText size overlap text = []) := by
  constructor
  · intro c hc
    unfold splitText at hc
    by_cases h : text = "" ∨ text.trim = ""
    · simp [h] at hc
    · rw [if_neg h] at hc
      exact splitRecursive_le size overlap hov defaultSeparators rfl text c hc
  · intro h
    unfold splitText
    rw [if_pos h]

/-- Witness for C8: the theorem applied at `chunkSize = 1000`,
`chunkOverlap = 200` and a sample text. -/
theorem split_text_chunk_size_bound_witness :
    200 < 1000 ∧
    ((∀ c ∈ splitText 1000 200 "sample text", c.length ≤ 1000) ∧
     (("sample text" = "" ∨ "sample text".trim = "") →
       splitText 1000 200 "sample text" = [])) :=
  ⟨by decide, split_text_chunk_size_bound 1000 200 "sample text" (by decide)⟩

end MapleRag
